import Mathlib

/-!
Shallow embedding of the product-catalog HTTP service in `src/app.js`.

The service keeps an ordered in-memory list of products and exposes CRUD
handlers plus a statistics endpoint.  Each Express route handler is embedded
as a pure Lean function from the catalog state (a `List Product`) and the
request data to a response and the new catalog state.  JavaScript numbers are
modelled as rationals (all arithmetic in the source is exact on the values in
play); a request-body value that coerces to NaN is modelled by a dedicated
constructor of `Prim`.
-/

/-- A product record: `{ id, name, price }` in the source. -/
structure Product where
  id : ℤ
  name : String
  price : ℚ
deriving DecidableEq

/-- The four seed records the catalog is initialized with (`let products = [...]`). -/
def seedProducts : List Product :=
  [⟨1, "Смартфон X Pro", 49990⟩,
   ⟨2, "Ноутбук Ultra 15", 89990⟩,
   ⟨3, "Беспроводные наушники", 5990⟩,
   ⟨4, "Умные часы Watch 5", 15990⟩]

/-- A JSON body value for the `price` field after JavaScript numeric coercion:
either a number or NaN (e.g. the result of `Number("abc")`).  `isNaN(v)` in the
source is `Prim.isNaN`; `Number(v)` is `Prim.toNum`. -/
inductive Prim where
  | num (q : ℚ)
  | nan
deriving DecidableEq

def Prim.isNaN : Prim → Bool
  | .nan => true
  | .num _ => false

/-- `Number(v)`; the NaN case is never consulted by the source because
`isNaN(price)` short-circuits first. -/
def Prim.toNum : Prim → ℚ
  | .nan => 0
  | .num q => q

/-- Error message of the missing-fields validation in the source. -/
def missingMsg : String := "Не все поля заполнены. Требуются: name, price"

/-- Error message of the invalid-price validation in the source. -/
def priceMsg : String := "Цена должна быть положительным числом"

/-- Error message of the id-lookup failure in the source. -/
def notFoundMsg : String := "Товар с таким ID не найден"

def createdMsg : String := "Товар успешно создан"

def updatedMsg : String := "Товар полностью обновлен"

def patchedMsg : String := "Товар частично обновлен"

def deletedMsg : String := "Товар успешно удален"

/-- The JSON responses the route handlers can produce. -/
inductive Response where
  | validationError (error : String)
  | notFound (error : String)
  | created (message : String) (product : Product)
  | okProduct (product : Product)
  | okUpdated (message : String) (product : Product)
  | okDeleted (message : String) (deletedProduct : Product)
deriving DecidableEq

/-- The HTTP status code attached to each response shape in the source. -/
def status : Response → ℕ
  | .validationError _ => 400
  | .notFound _ => 404
  | .created _ _ => 201
  | .okProduct _ => 200
  | .okUpdated _ _ => 200
  | .okDeleted _ _ => 200

/-- Digit run `cs` read as a decimal natural number. -/
def digitsToNat (cs : List Char) : ℕ :=
  cs.foldl (fun a c => 10 * a + (c.toNat - Char.toNat '0')) 0

/-- Leading decimal-digit run of `cs`. -/
def leadingDigits (cs : List Char) : List Char :=
  cs.takeWhile Char.isDigit

/-- JavaScript `parseInt(s)` (radix 10): optional sign followed by the longest
leading digit run; `none` models NaN (no leading digits). -/
def parseIntJS (s : String) : Option ℤ :=
  match s.toList with
  | '-' :: rest =>
      if (leadingDigits rest).isEmpty then none
      else some (-(digitsToNat (leadingDigits rest) : ℤ))
  | '+' :: rest =>
      if (leadingDigits rest).isEmpty then none
      else some ((digitsToNat (leadingDigits rest) : ℤ))
  | cs =>
      if (leadingDigits cs).isEmpty then none
      else some ((digitsToNat (leadingDigits cs) : ℤ))

/-- Decimal literal `[digits][.digits]` as a rational; `none` models NaN. -/
def parseDec (cs : List Char) : Option ℚ :=
  let ipart := cs.takeWhile Char.isDigit
  let rest := cs.dropWhile Char.isDigit
  match rest with
  | [] => if ipart.isEmpty then none else some (digitsToNat ipart : ℚ)
  | '.' :: fr =>
      if fr.all Char.isDigit && !(ipart.isEmpty && fr.isEmpty) then
        some ((digitsToNat ipart : ℚ) + (digitsToNat fr : ℚ) / (10 : ℚ) ^ fr.length)
      else none
  | _ => none

/-- JavaScript `Number(s)` on a string: the empty string coerces to `0`;
otherwise an optional sign followed by a decimal literal; `none` models NaN.
(Exotic forms such as exponents, hex or `Infinity` are outside the model.) -/
def jsToNumber (s : String) : Option ℚ :=
  if s = "" then some 0
  else
    match s.toList with
    | '-' :: rest => (parseDec rest).map (fun q => -q)
    | '+' :: rest => parseDec rest
    | cs => parseDec cs

/-- `findProductById` from the source:
`products.find(p => p.id === parseInt(id))`. -/
def findProductById (ps : List Product) (idStr : String) : Option Product :=
  match parseIntJS idStr with
  | none => none
  | some i => ps.find? (fun p => decide (p.id = i))

/-- Truthiness of `!name` in the source: a missing name or the empty string is
falsy (every other string the model admits is truthy). -/
def nameFalsy : Option String → Bool
  | none => true
  | some s => s.isEmpty

/-- Outcome of the shared `name`/`price` validation of the create and replace
handlers. -/
inductive FieldCheck where
  | bad (error : String)
  | good (n : String) (q : ℚ)
deriving DecidableEq

/-- The body validation performed identically by POST and PUT:
`if (!name || price === undefined) ... if (isNaN(price) || price < 0) ...`. -/
def checkFields : Option String → Option Prim → FieldCheck
  | none, _ => .bad missingMsg
  | some _, none => .bad missingMsg
  | some n, some pv =>
      if n.isEmpty then .bad missingMsg
      else if pv.isNaN || decide (pv.toNum < 0) then .bad priceMsg
      else .good n pv.toNum

/-- Id assigned by the create handler:
`Date.now() + Math.floor(Math.random() * 1000)`. -/
def createId (now rand : ℕ) : ℤ := (now : ℤ) + (rand : ℤ)

/-- POST `/products`: validate the body, then append a fresh record. -/
def postHandler (ps : List Product) (name? : Option String) (price? : Option Prim)
    (now rand : ℕ) : Response × List Product :=
  match checkFields name? price? with
  | .bad e => (.validationError e, ps)
  | .good n q =>
      let np : Product := ⟨createId now rand, n, q⟩
      (.created createdMsg np, ps ++ [np])

/-- GET `/products`: optional `minPrice`/`maxPrice` query filters.  A query
value is applied only when truthy (`if (minPrice)`), and each comparison
against a NaN conversion is false. -/
def listHandler (ps : List Product) (minP maxP : Option String) : List Product :=
  let f1 :=
    match minP with
    | some s =>
        if s = "" then ps
        else ps.filter (fun p =>
          match jsToNumber s with
          | some q => decide (q ≤ p.price)
          | none => false)
    | none => ps
  match maxP with
  | some s =>
      if s = "" then f1
      else f1.filter (fun p =>
        match jsToNumber s with
        | some q => decide (p.price ≤ q)
        | none => false)
  | none => f1

/-- GET `/products/:id`. -/
def getHandler (ps : List Product) (idStr : String) : Response :=
  match findProductById ps idStr with
  | none => .notFound notFoundMsg
  | some p => .okProduct p

/-- In-place mutation of the object returned by `find`: the first record whose
id is `i` is replaced by `p'`; every other record is untouched. -/
def updateById (i : ℤ) (p' : Product) : List Product → List Product
  | [] => []
  | p :: t => if p.id = i then p' :: t else p :: updateById i p' t

/-- PUT `/products/:id`: existence check first (404), then the same body
validation as POST (400), then both fields are overwritten in place. -/
def putHandler (ps : List Product) (idStr : String)
    (name? : Option String) (price? : Option Prim) : Response × List Product :=
  match parseIntJS idStr with
  | none => (.notFound notFoundMsg, ps)
  | some i =>
      match ps.find? (fun p => decide (p.id = i)) with
      | none => (.notFound notFoundMsg, ps)
      | some p =>
          match checkFields name? price? with
          | .bad e => (.validationError e, ps)
          | .good n q =>
              let p' : Product := ⟨p.id, n, q⟩
              (.okUpdated updatedMsg p', updateById i p' ps)

/-- PATCH `/products/:id`: existence check first; a provided `name` is written
to the live record *before* the price validation runs, so the name overwrite
persists even when an invalid price then aborts with 400. -/
def patchHandler (ps : List Product) (idStr : String)
    (name? : Option String) (price? : Option Prim) : Response × List Product :=
  match parseIntJS idStr with
  | none => (.notFound notFoundMsg, ps)
  | some i =>
      match ps.find? (fun p => decide (p.id = i)) with
      | none => (.notFound notFoundMsg, ps)
      | some p =>
          let p1 : Product :=
            match name? with
            | some n => ⟨p.id, n, p.price⟩
            | none => p
          match price? with
          | none => (.okUpdated patchedMsg p1, updateById i p1 ps)
          | some pv =>
              if pv.isNaN || decide (pv.toNum < 0) then
                (.validationError priceMsg, updateById i p1 ps)
              else
                let p2 : Product := ⟨p1.id, p1.name, pv.toNum⟩
                (.okUpdated patchedMsg p2, updateById i p2 ps)

/-- `products.findIndex(p => p.id === parseInt(id))` followed by
`products.splice(index, 1)`: remove the first record with id `i` and return it
with the remaining list. -/
def removeFirstById (i : ℤ) : List Product → Option (Product × List Product)
  | [] => none
  | p :: t =>
      if p.id = i then some (p, t)
      else (removeFirstById i t).map (fun r => (r.1, p :: r.2))

/-- DELETE `/products/:id`. -/
def deleteHandler (ps : List Product) (idStr : String) : Response × List Product :=
  match parseIntJS idStr with
  | none => (.notFound notFoundMsg, ps)
  | some i =>
      match removeFirstById i ps with
      | none => (.notFound notFoundMsg, ps)
      | some r => (.okDeleted deletedMsg r.1, r.2)

/-- `averagePrice` in the summary is a fixed-point string for a non-empty
catalog and the bare number `0` for an empty one. -/
inductive AvgPrice where
  | num (q : ℚ)
  | str (s : String)
deriving DecidableEq

/-- Two-digit zero-padded fractional part. -/
def pad2 (n : ℕ) : String :=
  if n < 10 then "0" ++ toString n else toString n

/-- `x.toFixed(2)`: round to the nearest hundredth and print with exactly two
fractional digits. -/
def toFixed2 (q : ℚ) : String :=
  let n : ℤ := round (q * 100)
  let a : ℕ := n.natAbs
  (if n < 0 then "-" else "") ++ toString (a / 100) ++ "." ++ pad2 (a % 100)

/-- The summary payload of GET `/products/stats/summary`. -/
structure SummaryData where
  totalProducts : ℕ
  totalValue : ℚ
  averagePrice : AvgPrice
  cheapestProduct : Option Product
  mostExpensiveProduct : Option Product
deriving DecidableEq

/-- GET `/products/stats/summary`, with the two `reduce` folds of the source
(`(min, p) => p.price < min.price ? p : min` seeded with `products[0]`, and
dually for the maximum). -/
def summary (ps : List Product) : SummaryData :=
  let totalProducts := ps.length
  let totalValue : ℚ := ps.foldl (fun s p => s + p.price) 0
  let averagePrice : AvgPrice :=
    if 0 < totalProducts then .str (toFixed2 (totalValue / (totalProducts : ℚ)))
    else .num 0
  let cheapestProduct : Option Product :=
    match ps with
    | [] => none
    | p :: _ => some (ps.foldl (fun m x => if x.price < m.price then x else m) p)
  let mostExpensiveProduct : Option Product :=
    match ps with
    | [] => none
    | p :: _ => some (ps.foldl (fun m x => if m.price < x.price then x else m) p)
  ⟨totalProducts, totalValue, averagePrice, cheapestProduct, mostExpensiveProduct⟩

/-- The record with minimum price, ties resolved to the first-encountered
record in sequence order — stated from the spec's words, to be compared with
the fold in `summary`. -/
def specFirstMin (ps : List Product) : Option Product :=
  ps.find? (fun x => ps.all (fun q => decide (x.price ≤ q.price)))

/-- The record with maximum price, ties resolved to the first-encountered
record in sequence order — stated from the spec's words. -/
def specFirstMax (ps : List Product) : Option Product :=
  ps.find? (fun x => ps.all (fun q => decide (q.price ≤ x.price)))

/-! ## Helper lemmas -/

theorem find_first_of_split {α : Type} (P : α → Bool) :
    ∀ (pre : List α) (r : α) (post : List α),
    (∀ x ∈ pre, P x = false) → P r = true →
    (pre ++ r :: post).find? P = some r := by
  intro pre
  induction pre with
  | nil =>
      intro r post _ hr
      simpa using List.find?_cons_of_pos _ hr
  | cons a t ih =>
      intro r post hpre hr
      have ha : P a = false := hpre a (by simp)
      rw [List.cons_append, List.find?_cons_of_neg _ (by simp [ha])]
      exact ih r post (fun x hx => hpre x (by simp [hx])) hr

theorem updateById_split :
    ∀ (pre : List Product) (p : Product) (post : List Product) (p' : Product) (i : ℤ),
    p.id = i → (∀ x ∈ pre, x.id ≠ i) →
    updateById i p' (pre ++ p :: post) = pre ++ p' :: post := by
  intro pre
  induction pre with
  | nil =>
      intro p post p' i hp _
      simp [updateById, hp]
  | cons a t ih =>
      intro p post p' i hp hpre
      have ha : a.id ≠ i := hpre a (by simp)
      have ht := ih p post p' i hp (fun x hx => hpre x (by simp [hx]))
      simp only [List.cons_append, updateById, if_neg ha]
      show a :: updateById i p' (t ++ p :: post) = a :: (t ++ p' :: post)
      rw [ht]

theorem removeFirstById_split :
    ∀ (pre : List Product) (p : Product) (post : List Product) (i : ℤ),
    p.id = i → (∀ x ∈ pre, x.id ≠ i) →
    removeFirstById i (pre ++ p :: post) = some (p, pre ++ post) := by
  intro pre
  induction pre with
  | nil =>
      intro p post i hp _
      simp [removeFirstById, hp]
  | cons a t ih =>
      intro p post i hp hpre
      have ha : a.id ≠ i := hpre a (by simp)
      have ht := ih p post i hp (fun x hx => hpre x (by simp [hx]))
      simp only [List.cons_append, removeFirstById, if_neg ha]
      show Option.map (fun r => (r.1, a :: r.2)) (removeFirstById i (t ++ p :: post))
        = some (p, a :: (t ++ post))
      rw [ht]
      rfl

theorem foldl_add_price :
    ∀ (t : List Product) (a : ℚ),
    t.foldl (fun s p => s + p.price) a = a + (t.map Product.price).sum := by
  intro t
  induction t with
  | nil => intro a; simp
  | cons p t ih =>
      intro a
      simp only [List.foldl_cons, List.map_cons, List.sum_cons]
      rw [ih]
      ring

/-! ## Claims -/

/-- C1: the catalog id-uniqueness invariant fails for the generation policy of
the create handler: with current time 4 and random offset 1 the new id 5
collides with an existing product's id, so two live products share an id. -/
theorem create_id_collision :
    (postHandler [⟨5, "x", 1⟩] (some "y") (some (Prim.num 2)) 4 1).2
      = [⟨5, "x", 1⟩, ⟨5, "y", 2⟩] ∧
    ¬ (((postHandler [⟨5, "x", 1⟩] (some "y") (some (Prim.num 2)) 4 1).2.map
        Product.id).Nodup) := by
  constructor
  · decide
  · decide

/-- C9: the id path parameter is parsed as an integer; for every id string
whose parse fails, GetById, ReplaceById, PatchById and DeleteById never match
any product and answer the 404 not-found error, leaving the catalog unchanged. -/
theorem nonnumeric_id_yields_not_found :
    ∀ (ps : List Product) (s : String) (n? : Option String) (p? : Option Prim),
    parseIntJS s = none →
    findProductById ps s = none ∧
    getHandler ps s = .notFound notFoundMsg ∧
    putHandler ps s n? p? = (.notFound notFoundMsg, ps) ∧
    patchHandler ps s n? p? = (.notFound notFoundMsg, ps) ∧
    deleteHandler ps s = (.notFound notFoundMsg, ps) ∧
    status (Response.notFound notFoundMsg) = 404 := by
  intro ps s n? p? h
  refine ⟨?_, ?_, ?_, ?_, ?_, rfl⟩ <;>
    simp [findProductById, getHandler, putHandler, patchHandler, deleteHandler, h]

/-- Witness for C9 at the concrete non-numeric id string `"abc"`. -/
theorem nonnumeric_id_yields_not_found_witness :
    findProductById seedProducts "abc" = none ∧
    getHandler seedProducts "abc" = .notFound notFoundMsg ∧
    putHandler seedProducts "abc" none none = (.notFound notFoundMsg, seedProducts) ∧
    patchHandler seedProducts "abc" none none = (.notFound notFoundMsg, seedProducts) ∧
    deleteHandler seedProducts "abc" = (.notFound notFoundMsg, seedProducts) ∧
    status (Response.notFound notFoundMsg) = 404 :=
  nonnumeric_id_yields_not_found seedProducts "abc" none none (by decide)

/-- C10: a `minPrice` or `maxPrice` query value whose numeric conversion is NaN
makes every price comparison false, so List returns the empty sequence (and no
error), whatever the catalog and the other filter. -/
theorem nonnumeric_price_filter_empty :
    ∀ (ps : List Product) (s : String) (o : Option String),
    jsToNumber s = none →
    listHandler ps (some s) o = [] ∧ listHandler ps o (some s) = [] := by
  intro ps s o h
  have hs : s ≠ "" := by
    intro he
    rw [he] at h
    simp [jsToNumber] at h
  constructor
  · unfold listHandler
    cases o with
    | none => simp [hs, h]
    | some s2 => by_cases h2 : s2 = "" <;> simp [hs, h, h2]
  · unfold listHandler
    cases o with
    | none => simp [hs, h]
    | some s2 => by_cases h2 : s2 = "" <;> simp [hs, h, h2]

/-- Witness for C10 at the concrete non-numeric query value `"abc"` on the
seed catalog. -/
theorem nonnumeric_price_filter_empty_witness :
    listHandler seedProducts (some "abc") (some "5") = [] ∧
    listHandler seedProducts (some "5") (some "abc") = [] :=
  nonnumeric_price_filter_empty seedProducts "abc" (some "5") (by decide)

/-- C2: Create fails with a 400 validation error exactly when the name is
missing or empty, or the price is missing, non-numeric or negative; on every
input with a present non-empty name and a present numeric price ≥ 0 it appends
the new record to the end of the catalog and answers 201 with that record. -/
theorem create_validation_spec :
    ∀ (ps : List Product) (n? : Option String) (p? : Option Prim) (now rand : ℕ),
    ((∃ e, (postHandler ps n? p? now rand).1 = .validationError e) ↔
      (n? = none ∨ n? = some "" ∨ p? = none ∨ p? = some Prim.nan ∨
        ∃ q, p? = some (Prim.num q) ∧ q < 0)) ∧
    (∀ n q, n? = some n → n ≠ "" → p? = some (Prim.num q) → 0 ≤ q →
      postHandler ps n? p? now rand =
        (.created createdMsg ⟨createId now rand, n, q⟩,
          ps ++ [⟨createId now rand, n, q⟩]) ∧
      status (postHandler ps n? p? now rand).1 = 201) := by
  intro ps n? p? now rand
  constructor
  · cases n? with
    | none => simp [postHandler, checkFields]
    | some n =>
        cases p? with
        | none => simp [postHandler, checkFields]
        | some pv =>
            cases pv with
            | nan =>
                by_cases hn : n = "" <;>
                  simp [postHandler, checkFields, hn, Prim.isNaN, String.isEmpty_iff]
            | num q =>
                by_cases hn : n = ""
                · simp [postHandler, checkFields, hn, String.isEmpty_iff]
                · by_cases hq : q < 0 <;>
                    simp [postHandler, checkFields, hn, hq, Prim.isNaN, Prim.toNum,
                      String.isEmpty_iff]
  · intro n q hn hne hp hq
    subst hn
    subst hp
    have hc : checkFields (some n) (some (Prim.num q)) = .good n q := by
      simp [checkFields, Prim.isNaN, Prim.toNum, String.isEmpty_iff, hne, not_lt.mpr hq]
    constructor
    · simp [postHandler, hc]
    · simp [postHandler, hc, status]

/-- Witness for C2: creating a valid product on the seed catalog appends it
and answers 201. -/
theorem create_validation_spec_witness :
    postHandler seedProducts (some "Планшет") (some (Prim.num 5)) 100 7 =
      (.created createdMsg ⟨createId 100 7, "Планшет", 5⟩,
        seedProducts ++ [⟨createId 100 7, "Планшет", 5⟩]) ∧
    status (postHandler seedProducts (some "Планшет") (some (Prim.num 5)) 100 7).1 = 201 :=
  (create_validation_spec seedProducts (some "Планшет") (some (Prim.num 5)) 100 7).2
    "Планшет" 5 rfl (by decide) rfl (by norm_num)

/-- Name of the targeted record after a patch: a provided name overwrites
unconditionally (even the empty string), an omitted one is kept. -/
def patchedName (n? : Option String) (p : Product) : String :=
  match n? with
  | some n => n
  | none => p.name

/-- Price of the targeted record after a patch: only a provided, numeric,
non-negative price overwrites; otherwise the old price is kept. -/
def patchedPrice (p? : Option Prim) (p : Product) : ℚ :=
  match p? with
  | none => p.price
  | some Prim.nan => p.price
  | some (Prim.num q) => if q < 0 then p.price else q

/-- The supplied price (if any) passes the patch validation. -/
def priceAccepted (p? : Option Prim) : Prop :=
  match p? with
  | none => True
  | some Prim.nan => False
  | some (Prim.num q) => 0 ≤ q

/-- C4: ReplaceById checks existence before field validation: an unknown id
answers 404 whatever the body; a validation error can only arise for an
existing id; and on success both fields of the targeted record are overwritten
in place, every other record staying put. -/
theorem replace_checks_existence_first :
    ∀ (ps : List Product) (idStr : String) (n? : Option String) (p? : Option Prim),
    (findProductById ps idStr = none →
      putHandler ps idStr n? p? = (.notFound notFoundMsg, ps)) ∧
    (∀ p e, findProductById ps idStr = some p → checkFields n? p? = .bad e →
      putHandler ps idStr n? p? = (.validationError e, ps)) ∧
    (∀ e, (putHandler ps idStr n? p?).1 = .validationError e →
      (∃ p, findProductById ps idStr = some p) ∧ checkFields n? p? = .bad e) ∧
    (∀ (i : ℤ) (p : Product) (pre post : List Product) (n : String) (q : ℚ),
      parseIntJS idStr = some i → ps = pre ++ p :: post → p.id = i →
      (∀ x ∈ pre, x.id ≠ i) → checkFields n? p? = .good n q →
      putHandler ps idStr n? p? =
        (.okUpdated updatedMsg ⟨p.id, n, q⟩, pre ++ (⟨p.id, n, q⟩ : Product) :: post)) := by
  intro ps idStr n? p?
  refine ⟨?_, ?_, ?_, ?_⟩
  · intro h
    unfold findProductById at h
    cases hp : parseIntJS idStr with
    | none => simp [putHandler, hp]
    | some i =>
        simp only [hp] at h
        simp [putHandler, hp, h]
  · intro p e hf hb
    unfold findProductById at hf
    cases hp : parseIntJS idStr with
    | none => simp only [hp] at hf; exact absurd hf (by simp)
    | some i =>
        simp only [hp] at hf
        simp [putHandler, hp, hf, hb]
  · intro e he
    cases hp : parseIntJS idStr with
    | none => simp [putHandler, hp] at he
    | some i =>
        simp only [putHandler, hp] at he
        cases hf : ps.find? (fun p => decide (p.id = i)) with
        | none => rw [hf] at he; simp at he
        | some p =>
            rw [hf] at he
            cases hc : checkFields n? p? with
            | bad e2 =>
                rw [hc] at he
                have : e2 = e := by simpa using he
                subst this
                exact ⟨⟨p, by simp [findProductById, hp, hf]⟩, rfl⟩
            | good n q => rw [hc] at he; simp at he
  · intro i p pre post n q hp hps hid hpre hc
    subst hps
    have hfind : (pre ++ p :: post).find? (fun x => decide (x.id = i)) = some p :=
      find_first_of_split _ pre p post (fun x hx => by simp [hpre x hx]) (by simp [hid])
    have hupd := updateById_split pre p post ⟨p.id, n, q⟩ i hid hpre
    simp [putHandler, hp, hfind, hc, hupd]

/-- Witness for C4: replacing the record with id 3 in the seed catalog
overwrites both fields in place. -/
theorem replace_checks_existence_first_witness :
    putHandler seedProducts "3" (some "Наушники Pro") (some (Prim.num 7990)) =
      (.okUpdated updatedMsg ⟨3, "Наушники Pro", 7990⟩,
        [⟨1, "Смартфон X Pro", 49990⟩, ⟨2, "Ноутбук Ultra 15", 89990⟩] ++
          (⟨3, "Наушники Pro", 7990⟩ : Product) :: [⟨4, "Умные часы Watch 5", 15990⟩]) :=
  (replace_checks_existence_first seedProducts "3"
      (some "Наушники Pro") (some (Prim.num 7990))).2.2.2
    3 ⟨3, "Беспроводные наушники", 5990⟩
    [⟨1, "Смартфон X Pro", 49990⟩, ⟨2, "Ноутбук Ultra 15", 89990⟩]
    [⟨4, "Умные часы Watch 5", 15990⟩]
    "Наушники Pro" 7990 (by decide) rfl rfl (by decide) (by decide)

/-- C5: for an existing id, a patch overwrites the name unconditionally when
one is provided (even the empty string), overwrites the price only when it is
provided, numeric and ≥ 0, and leaves every omitted field unchanged; when the
supplied price passes validation (or is absent) the updated record is returned
with a 200 message. -/
theorem patch_update_semantics :
    ∀ (ps : List Product) (idStr : String) (n? : Option String) (p? : Option Prim)
      (i : ℤ) (p : Product) (pre post : List Product),
    parseIntJS idStr = some i → ps = pre ++ p :: post → p.id = i →
    (∀ x ∈ pre, x.id ≠ i) →
    (patchHandler ps idStr n? p?).2 =
      pre ++ (⟨p.id, patchedName n? p, patchedPrice p? p⟩ : Product) :: post ∧
    (priceAccepted p? →
      patchHandler ps idStr n? p? =
        (.okUpdated patchedMsg ⟨p.id, patchedName n? p, patchedPrice p? p⟩,
          pre ++ (⟨p.id, patchedName n? p, patchedPrice p? p⟩ : Product) :: post)) := by
  intro ps idStr n? p? i p pre post hp hps hid hpre
  subst hps
  have hfind : (pre ++ p :: post).find? (fun x => decide (x.id = i)) = some p :=
    find_first_of_split _ pre p post (fun x hx => by simp [hpre x hx]) (by simp [hid])
  have hupd : ∀ p' : Product,
      updateById i p' (pre ++ p :: post) = pre ++ p' :: post :=
    fun p' => updateById_split pre p post p' i hid hpre
  cases n? with
  | none =>
      cases p? with
      | none =>
          exact ⟨by simp [patchHandler, hp, hfind, hupd, patchedName, patchedPrice],
            fun _ => by simp [patchHandler, hp, hfind, hupd, patchedName, patchedPrice]⟩
      | some pv =>
          cases pv with
          | nan =>
              exact ⟨by simp [patchHandler, hp, hfind, hupd, Prim.isNaN,
                  patchedName, patchedPrice],
                fun h => h.elim⟩
          | num q =>
              by_cases hq : q < 0
              · refine ⟨?_, ?_⟩
                · simp [patchHandler, hp, hfind, hupd, Prim.isNaN, Prim.toNum, hq,
                    patchedName, patchedPrice]
                · intro h0
                  exact absurd hq (not_lt.mpr h0)
              · refine ⟨?_, fun _ => ?_⟩ <;>
                  simp [patchHandler, hp, hfind, hupd, Prim.isNaN, Prim.toNum, hq,
                    patchedName, patchedPrice]
  | some n =>
      cases p? with
      | none =>
          exact ⟨by simp [patchHandler, hp, hfind, hupd, patchedName, patchedPrice],
            fun _ => by simp [patchHandler, hp, hfind, hupd, patchedName, patchedPrice]⟩
      | some pv =>
          cases pv with
          | nan =>
              exact ⟨by simp [patchHandler, hp, hfind, hupd, Prim.isNaN,
                  patchedName, patchedPrice],
                fun h => h.elim⟩
          | num q =>
              by_cases hq : q < 0
              · refine ⟨?_, ?_⟩
                · simp [patchHandler, hp, hfind, hupd, Prim.isNaN, Prim.toNum, hq,
                    patchedName, patchedPrice]
                · intro h0
                  exact absurd hq (not_lt.mpr h0)
              · refine ⟨?_, fun _ => ?_⟩ <;>
                  simp [patchHandler, hp, hfind, hupd, Prim.isNaN, Prim.toNum, hq,
                    patchedName, patchedPrice]

/-- Witness for C5: patching only the price of the record with id 3 changes
its price and leaves its name untouched. -/
theorem patch_update_semantics_witness :
    (patchHandler seedProducts "3" none (some (Prim.num 100))).2 =
      [⟨1, "Смартфон X Pro", 49990⟩, ⟨2, "Ноутбук Ultra 15", 89990⟩] ++
        (⟨3, patchedName none ⟨3, "Беспроводные наушники", 5990⟩,
          patchedPrice (some (Prim.num 100)) ⟨3, "Беспроводные наушники", 5990⟩⟩ :
            Product) :: [⟨4, "Умные часы Watch 5", 15990⟩] ∧
    (priceAccepted (some (Prim.num 100)) →
      patchHandler seedProducts "3" none (some (Prim.num 100)) =
        (.okUpdated patchedMsg
          ⟨3, patchedName none ⟨3, "Беспроводные наушники", 5990⟩,
            patchedPrice (some (Prim.num 100)) ⟨3, "Беспроводные наушники", 5990⟩⟩,
          [⟨1, "Смартфон X Pro", 49990⟩, ⟨2, "Ноутбук Ultra 15", 89990⟩] ++
            (⟨3, patchedName none ⟨3, "Беспроводные наушники", 5990⟩,
              patchedPrice (some (Prim.num 100)) ⟨3, "Беспроводные наушники", 5990⟩⟩ :
                Product) :: [⟨4, "Умные часы Watch 5", 15990⟩])) :=
  patch_update_semantics seedProducts "3" none (some (Prim.num 100))
    3 ⟨3, "Беспроводные наушники", 5990⟩
    [⟨1, "Смартфон X Pro", 49990⟩, ⟨2, "Ноутбук Ultra 15", 89990⟩]
    [⟨4, "Умные часы Watch 5", 15990⟩]
    (by decide) rfl rfl (by decide)

/-- C6 counterexample: a patch supplying both a new name and the invalid price
-1 answers the 400 validation error, yet the targeted record HAS been mutated:
its name was overwritten before the price check ran. -/
theorem patch_atomicity_counterexample :
    (patchHandler [⟨1, "old", 5⟩] "1" (some "new") (some (Prim.num (-1)))).1
      = .validationError priceMsg ∧
    (patchHandler [⟨1, "old", 5⟩] "1" (some "new") (some (Prim.num (-1)))).2
      = [⟨1, "new", 5⟩] ∧
    ([(⟨1, "new", 5⟩ : Product)] ≠ [(⟨1, "old", 5⟩ : Product)]) := by
  refine ⟨by decide, by decide, by decide⟩

/-- C6 amended: when a patch of an existing id fails with the price validation
error, the record's price is unchanged; the record is entirely unmutated only
when no name was supplied — a supplied name has already been written and the
overwrite persists despite the error. -/
theorem patch_error_keeps_price :
    ∀ (ps : List Product) (idStr : String) (n? : Option String) (pv : Prim)
      (i : ℤ) (p : Product) (pre post : List Product),
    parseIntJS idStr = some i → ps = pre ++ p :: post → p.id = i →
    (∀ x ∈ pre, x.id ≠ i) →
    (pv = Prim.nan ∨ pv.toNum < 0) →
    patchHandler ps idStr n? (some pv) =
      (.validationError priceMsg,
        pre ++ (⟨p.id, patchedName n? p, p.price⟩ : Product) :: post) ∧
    (n? = none → patchHandler ps idStr n? (some pv) = (.validationError priceMsg, ps)) := by
  intro ps idStr n? pv i p pre post hp hps hid hpre hbad
  subst hps
  have hfind : (pre ++ p :: post).find? (fun x => decide (x.id = i)) = some p :=
    find_first_of_split _ pre p post (fun x hx => by simp [hpre x hx]) (by simp [hid])
  have hupd : ∀ p' : Product,
      updateById i p' (pre ++ p :: post) = pre ++ p' :: post :=
    fun p' => updateById_split pre p post p' i hid hpre
  have hcheck : (pv.isNaN || decide (pv.toNum < 0)) = true := by
    rcases hbad with h | h
    · simp [h, Prim.isNaN]
    · simp [h]
  constructor
  · cases n? with
    | none => simp [patchHandler, hp, hfind, hupd, hcheck, patchedName]
    | some n => simp [patchHandler, hp, hfind, hupd, hcheck, patchedName]
  · intro hn
    subst hn
    simp [patchHandler, hp, hfind, hupd, hcheck]

/-- Witness for the amended C6: patching only an invalid price on the seed
catalog fails with 400 and leaves the catalog unchanged. -/
theorem patch_error_keeps_price_witness :
    patchHandler seedProducts "1" none (some (Prim.num (-1))) =
      (.validationError priceMsg,
        [] ++ (⟨1, patchedName none ⟨1, "Смартфон X Pro", 49990⟩,
          (⟨1, "Смартфон X Pro", 49990⟩ : Product).price⟩ : Product) ::
          [⟨2, "Ноутбук Ultra 15", 89990⟩, ⟨3, "Беспроводные наушники", 5990⟩,
           ⟨4, "Умные часы Watch 5", 15990⟩]) ∧
    (none = (none : Option String) →
      patchHandler seedProducts "1" none (some (Prim.num (-1))) =
        (.validationError priceMsg, seedProducts)) :=
  patch_error_keeps_price seedProducts "1" none (Prim.num (-1))
    1 ⟨1, "Смартфон X Pro", 49990⟩ []
    [⟨2, "Ноутбук Ultra 15", 89990⟩, ⟨3, "Беспроводные наушники", 5990⟩,
     ⟨4, "Умные часы Watch 5", 15990⟩]
    (by decide) rfl rfl (by decide) (Or.inr (by norm_num [Prim.toNum]))

/-- C7: deleting an existing id removes exactly that one record, leaves every
other record in its original relative order, returns the pre-deletion snapshot,
and a subsequent GetById for that id answers the 404 not-found error. -/
theorem delete_removes_exactly_one :
    ∀ (ps : List Product) (idStr : String) (i : ℤ) (p : Product)
      (pre post : List Product),
    parseIntJS idStr = some i → ps = pre ++ p :: post → p.id = i →
    (∀ x ∈ pre, x.id ≠ i) → (ps.map Product.id).Nodup →
    deleteHandler ps idStr = (.okDeleted deletedMsg p, pre ++ post) ∧
    findProductById (pre ++ post) idStr = none ∧
    getHandler (pre ++ post) idStr = .notFound notFoundMsg := by
  intro ps idStr i p pre post hp hps hid hpre hnd
  subst hps
  have hrem := removeFirstById_split pre p post i hid hpre
  have h1 : deleteHandler (pre ++ p :: post) idStr
      = (.okDeleted deletedMsg p, pre ++ post) := by
    simp [deleteHandler, hp, hrem]
  rw [List.map_append, List.map_cons] at hnd
  have hpost : p.id ∉ post.map Product.id :=
    (List.nodup_cons.mp (List.Nodup.of_append_right hnd)).1
  have hnotin : ∀ x ∈ pre ++ post, x.id ≠ i := by
    intro x hx
    rcases List.mem_append.mp hx with h | h
    · exact hpre x h
    · intro he
      have hm : x.id ∈ post.map Product.id := List.mem_map_of_mem Product.id h
      rw [he, ← hid] at hm
      exact hpost hm
  have h2 : findProductById (pre ++ post) idStr = none := by
    unfold findProductById
    rw [hp]
    rw [List.find?_eq_none]
    intro x hx
    simpa using hnotin x hx
  exact ⟨h1, h2, by simp [getHandler, h2]⟩

/-- Witness for C7: deleting id 2 from the seed catalog removes exactly that
record and a subsequent GetById answers 404. -/
theorem delete_removes_exactly_one_witness :
    deleteHandler seedProducts "2" =
      (.okDeleted deletedMsg ⟨2, "Ноутбук Ultra 15", 89990⟩,
        [⟨1, "Смартфон X Pro", 49990⟩] ++
          [⟨3, "Беспроводные наушники", 5990⟩, ⟨4, "Умные часы Watch 5", 15990⟩]) ∧
    findProductById
      ([⟨1, "Смартфон X Pro", 49990⟩] ++
        [⟨3, "Беспроводные наушники", 5990⟩, ⟨4, "Умные часы Watch 5", 15990⟩]) "2"
      = none ∧
    getHandler
      ([⟨1, "Смартфон X Pro", 49990⟩] ++
        [⟨3, "Беспроводные наушники", 5990⟩, ⟨4, "Умные часы Watch 5", 15990⟩]) "2"
      = .notFound notFoundMsg :=
  delete_removes_exactly_one seedProducts "2" 2 ⟨2, "Ноутбук Ultra 15", 89990⟩
    [⟨1, "Смартфон X Pro", 49990⟩]
    [⟨3, "Беспроводные наушники", 5990⟩, ⟨4, "Умные часы Watch 5", 15990⟩]
    (by decide) rfl rfl (by decide) (by decide)

/-- C8: List returns the subsequence of products whose price is ≥ minPrice (if
given) and ≤ maxPrice (if given), preserving order; with no filters it returns
the full catalog, and on the seed catalog `minPrice=10000` keeps exactly the
records with ids 1, 2 and 4. -/
theorem list_filter_spec :
    (∀ ps : List Product, listHandler ps none none = ps) ∧
    (∀ (ps : List Product) (s : String) (q : ℚ), jsToNumber s = some q → s ≠ "" →
      listHandler ps (some s) none = ps.filter (fun p => decide (q ≤ p.price))) ∧
    (∀ (ps : List Product) (s : String) (q : ℚ), jsToNumber s = some q → s ≠ "" →
      listHandler ps none (some s) = ps.filter (fun p => decide (p.price ≤ q))) ∧
    (∀ (ps : List Product) (s1 s2 : String) (q1 q2 : ℚ),
      jsToNumber s1 = some q1 → s1 ≠ "" → jsToNumber s2 = some q2 → s2 ≠ "" →
      listHandler ps (some s1) (some s2) =
        ps.filter (fun p => decide (q1 ≤ p.price) && decide (p.price ≤ q2))) ∧
    listHandler seedProducts (some "10000") none =
      [⟨1, "Смартфон X Pro", 49990⟩, ⟨2, "Ноутбук Ultra 15", 89990⟩,
       ⟨4, "Умные часы Watch 5", 15990⟩] := by
  refine ⟨?_, ?_, ?_, ?_, by decide⟩
  · intro ps
    simp [listHandler]
  · intro ps s q h hs
    simp [listHandler, h, hs]
  · intro ps s q h hs
    simp [listHandler, h, hs]
  · intro ps s1 s2 q1 q2 h1 hs1 h2 hs2
    simp only [listHandler, h1, hs1, h2, hs2, if_false, List.filter_filter]
    exact List.filter_congr (fun x _ => by rw [Bool.and_comm])

/-- Witness for C8: the seed catalog filtered by `minPrice=10000`. -/
theorem list_filter_spec_witness :
    listHandler seedProducts (some "10000") none =
      seedProducts.filter (fun p => decide ((10000 : ℚ) ≤ p.price)) :=
  list_filter_spec.2.1 seedProducts "10000" 10000 (by decide) (by decide)

/-- Structural first-minimum: keeps the earlier record on a price tie. -/
def firstMin : List Product → Option Product
  | [] => none
  | p :: t =>
      match firstMin t with
      | none => some p
      | some q => some (if p.price ≤ q.price then p else q)

/-- Structural first-maximum: keeps the earlier record on a price tie. -/
def firstMax : List Product → Option Product
  | [] => none
  | p :: t =>
      match firstMax t with
      | none => some p
      | some q => some (if q.price ≤ p.price then p else q)

/-- The `reduce` accumulator of the cheapest-product computation. -/
def minFold (m : Product) (t : List Product) : Product :=
  t.foldl (fun a x => if x.price < a.price then x else a) m

/-- The `reduce` accumulator of the most-expensive-product computation. -/
def maxFold (m : Product) (t : List Product) : Product :=
  t.foldl (fun a x => if a.price < x.price then x else a) m

theorem firstMin_eq_none : ∀ t : List Product, firstMin t = none → t = [] := by
  intro t h
  cases t with
  | nil => rfl
  | cons a t2 =>
      cases hf : firstMin t2 <;> simp [firstMin, hf] at h

theorem firstMax_eq_none : ∀ t : List Product, firstMax t = none → t = [] := by
  intro t h
  cases t with
  | nil => rfl
  | cons a t2 =>
      cases hf : firstMax t2 <;> simp [firstMax, hf] at h

theorem minFold_cons_self (p : Product) (t : List Product) :
    minFold p (p :: t) = minFold p t := by
  simp [minFold]

theorem maxFold_cons_self (p : Product) (t : List Product) :
    maxFold p (p :: t) = maxFold p t := by
  simp [maxFold]

theorem minFold_eq_firstMin :
    ∀ (t : List Product) (m : Product),
    minFold m t =
      (match firstMin t with
       | none => m
       | some q => if q.price < m.price then q else m) := by
  intro t
  induction t with
  | nil => intro m; simp [minFold, firstMin]
  | cons p t ih =>
      intro m
      have step : minFold m (p :: t) = minFold (if p.price < m.price then p else m) t := rfl
      rw [step, ih]
      cases hf : firstMin t with
      | none =>
          simp only [firstMin, hf]
      | some q =>
          simp only [firstMin, hf]
          split_ifs <;> first | rfl | (exfalso; linarith)

theorem maxFold_eq_firstMax :
    ∀ (t : List Product) (m : Product),
    maxFold m t =
      (match firstMax t with
       | none => m
       | some q => if m.price < q.price then q else m) := by
  intro t
  induction t with
  | nil => intro m; simp [maxFold, firstMax]
  | cons p t ih =>
      intro m
      have step : maxFold m (p :: t) = maxFold (if m.price < p.price then p else m) t := rfl
      rw [step, ih]
      cases hf : firstMax t with
      | none =>
          simp only [firstMax, hf]
      | some q =>
          simp only [firstMax, hf]
          split_ifs <;> first | rfl | (exfalso; linarith)

theorem firstMin_char :
    ∀ (t : List Product) (r : Product), firstMin t = some r →
    ∃ pre post, t = pre ++ r :: post ∧ (∀ x ∈ pre, r.price < x.price) ∧
      (∀ x ∈ t, r.price ≤ x.price) := by
  intro t
  induction t with
  | nil => intro r h; simp [firstMin] at h
  | cons p t ih =>
      intro r h
      cases hf : firstMin t with
      | none =>
          have ht : t = [] := firstMin_eq_none t hf
          subst ht
          have hr : r = p := by simpa [firstMin] using h.symm
          subst hr
          exact ⟨[], [], rfl, by simp, by simp⟩
      | some q =>
          obtain ⟨pre, post, hps, hpre, hmin⟩ := ih q hf
          by_cases hpq : p.price ≤ q.price
          · have hr : r = p := by simpa [firstMin, hf, hpq] using h.symm
            subst hr
            refine ⟨[], t, rfl, by simp, ?_⟩
            intro x hx
            rcases List.mem_cons.mp hx with hx | hx
            · subst hx; exact le_refl _
            · exact le_trans hpq (hmin x hx)
          · have hr : r = q := by simpa [firstMin, hf, hpq] using h.symm
            subst hr
            refine ⟨p :: pre, post, by simp [hps], ?_, ?_⟩
            · intro x hx
              rcases List.mem_cons.mp hx with hx | hx
              · subst hx; exact lt_of_not_le hpq
              · exact hpre x hx
            · intro x hx
              rcases List.mem_cons.mp hx with hx | hx
              · subst hx; exact le_of_lt (lt_of_not_le hpq)
              · exact hmin x hx

theorem firstMax_char :
    ∀ (t : List Product) (r : Product), firstMax t = some r →
    ∃ pre post, t = pre ++ r :: post ∧ (∀ x ∈ pre, x.price < r.price) ∧
      (∀ x ∈ t, x.price ≤ r.price) := by
  intro t
  induction t with
  | nil => intro r h; simp [firstMax] at h
  | cons p t ih =>
      intro r h
      cases hf : firstMax t with
      | none =>
          have ht : t = [] := firstMax_eq_none t hf
          subst ht
          have hr : r = p := by simpa [firstMax] using h.symm
          subst hr
          exact ⟨[], [], rfl, by simp, by simp⟩
      | some q =>
          obtain ⟨pre, post, hps, hpre, hmax⟩ := ih q hf
          by_cases hpq : q.price ≤ p.price
          · have hr : r = p := by simpa [firstMax, hf, hpq] using h.symm
            subst hr
            refine ⟨[], t, rfl, by simp, ?_⟩
            intro x hx
            rcases List.mem_cons.mp hx with hx | hx
            · subst hx; exact le_refl _
            · exact le_trans (hmax x hx) hpq
          · have hr : r = q := by simpa [firstMax, hf, hpq] using h.symm
            subst hr
            refine ⟨p :: pre, post, by simp [hps], ?_, ?_⟩
            · intro x hx
              rcases List.mem_cons.mp hx with hx | hx
              · subst hx; exact lt_of_not_le hpq
              · exact hpre x hx
            · intro x hx
              rcases List.mem_cons.mp hx with hx | hx
              · subst hx; exact le_of_lt (lt_of_not_le hpq)
              · exact hmax x hx

theorem specFirstMin_of_split :
    ∀ (pre : List Product) (r : Product) (post : List Product),
    (∀ x ∈ pre, r.price < x.price) →
    (∀ x ∈ pre ++ r :: post, r.price ≤ x.price) →
    specFirstMin (pre ++ r :: post) = some r := by
  intro pre r post hpre hmin
  unfold specFirstMin
  apply find_first_of_split
  · intro x hx
    rw [List.all_eq_false]
    refine ⟨r, by simp, ?_⟩
    have := hpre x hx
    simp only [decide_eq_true_eq]
    intro hc
    linarith
  · rw [List.all_eq_true]
    intro y hy
    simp only [decide_eq_true_eq]
    exact hmin y hy

theorem specFirstMax_of_split :
    ∀ (pre : List Product) (r : Product) (post : List Product),
    (∀ x ∈ pre, x.price < r.price) →
    (∀ x ∈ pre ++ r :: post, x.price ≤ r.price) →
    specFirstMax (pre ++ r :: post) = some r := by
  intro pre r post hpre hmax
  unfold specFirstMax
  apply find_first_of_split
  · intro x hx
    rw [List.all_eq_false]
    refine ⟨r, by simp, ?_⟩
    have := hpre x hx
    simp only [decide_eq_true_eq]
    intro hc
    linarith
  · rw [List.all_eq_true]
    intro y hy
    simp only [decide_eq_true_eq]
    exact hmax y hy

theorem cheapestProduct_eq_spec :
    ∀ ps : List Product, (summary ps).cheapestProduct = specFirstMin ps := by
  intro ps
  cases ps with
  | nil => simp [summary, specFirstMin]
  | cons p t =>
      show some (minFold p (p :: t)) = specFirstMin (p :: t)
      rw [minFold_cons_self, minFold_eq_firstMin]
      cases hf : firstMin t with
      | none =>
          have ht : t = [] := firstMin_eq_none t hf
          subst ht
          simp [specFirstMin, List.find?]
      | some q =>
          obtain ⟨pre, post, hps, hpre, hmin⟩ := firstMin_char t q hf
          change some (if q.price < p.price then q else p) = specFirstMin (p :: t)
          by_cases hqp : q.price < p.price
          · rw [if_pos hqp]
            subst hps
            rw [show p :: (pre ++ q :: post) = (p :: pre) ++ q :: post from rfl]
            rw [specFirstMin_of_split (p :: pre) q post ?_ ?_]
            · intro x hx
              rcases List.mem_cons.mp hx with hx | hx
              · subst hx; exact hqp
              · exact hpre x hx
            · intro x hx
              rcases List.mem_cons.mp hx with hx | hx
              · subst hx; exact le_of_lt hqp
              · exact hmin x hx
          · rw [if_neg hqp]
            have hple : p.price ≤ q.price := not_lt.mp hqp
            exact (specFirstMin_of_split [] p t (by simp) (by
              intro x hx
              rcases List.mem_cons.mp (by simpa using hx) with hx2 | hx2
              · subst hx2; exact le_refl _
              · exact le_trans hple (hmin x hx2))).symm
  
theorem mostExpensive_eq_spec :
    ∀ ps : List Product, (summary ps).mostExpensiveProduct = specFirstMax ps := by
  intro ps
  cases ps with
  | nil => simp [summary, specFirstMax]
  | cons p t =>
      show some (maxFold p (p :: t)) = specFirstMax (p :: t)
      rw [maxFold_cons_self, maxFold_eq_firstMax]
      cases hf : firstMax t with
      | none =>
          have ht : t = [] := firstMax_eq_none t hf
          subst ht
          simp [specFirstMax, List.find?]
      | some q =>
          obtain ⟨pre, post, hps, hpre, hmax⟩ := firstMax_char t q hf
          change some (if p.price < q.price then q else p) = specFirstMax (p :: t)
          by_cases hqp : p.price < q.price
          · rw [if_pos hqp]
            subst hps
            rw [show p :: (pre ++ q :: post) = (p :: pre) ++ q :: post from rfl]
            rw [specFirstMax_of_split (p :: pre) q post ?_ ?_]
            · intro x hx
              rcases List.mem_cons.mp hx with hx | hx
              · subst hx; exact hqp
              · exact hpre x hx
            · intro x hx
              rcases List.mem_cons.mp hx with hx | hx
              · subst hx; exact le_of_lt hqp
              · exact hmax x hx
          · rw [if_neg hqp]
            have hple : q.price ≤ p.price := not_lt.mp hqp
            exact (specFirstMax_of_split [] p t (by simp) (by
              intro x hx
              rcases List.mem_cons.mp (by simpa using hx) with hx2 | hx2
              · subst hx2; exact le_refl _
              · exact le_trans (hmax x hx2) hple)).symm

/-- C3: Summary reports the record count, the sum of prices, the average
formatted to two decimals (or the bare number 0 on an empty catalog), and the
first-encountered records of minimum and maximum price; on the seed catalog it
yields totalProducts 4, totalValue 161960, averagePrice "40490.00", cheapest
id 3 and most expensive id 2. -/
theorem summary_spec :
    (∀ ps : List Product,
      (summary ps).totalProducts = ps.length ∧
      (summary ps).totalValue = (ps.map Product.price).sum ∧
      (summary ps).cheapestProduct = specFirstMin ps ∧
      (summary ps).mostExpensiveProduct = specFirstMax ps ∧
      (ps = [] → (summary ps).averagePrice = AvgPrice.num 0) ∧
      (ps ≠ [] →
        (summary ps).averagePrice =
          AvgPrice.str (toFixed2 ((ps.map Product.price).sum / (ps.length : ℚ))))) ∧
    summary seedProducts =
      ⟨4, 161960, AvgPrice.str "40490.00",
        some ⟨3, "Беспроводные наушники", 5990⟩,
        some ⟨2, "Ноутбук Ultra 15", 89990⟩⟩ := by
  constructor
  · intro ps
    refine ⟨rfl, ?_, cheapestProduct_eq_spec ps, mostExpensive_eq_spec ps, ?_, ?_⟩
    · show ps.foldl (fun s p => s + p.price) 0 = (ps.map Product.price).sum
      rw [foldl_add_price, zero_add]
    · intro h
      subst h
      rfl
    · intro h
      have hl : 0 < ps.length := List.length_pos.mpr h
      show (if 0 < ps.length then
          AvgPrice.str (toFixed2 ((ps.foldl (fun s p => s + p.price) 0) / (ps.length : ℚ)))
        else AvgPrice.num 0) =
        AvgPrice.str (toFixed2 ((ps.map Product.price).sum / (ps.length : ℚ)))
      rw [if_pos hl, foldl_add_price, zero_add]
  · have htv : seedProducts.foldl (fun s p => s + p.price) 0 = (161960 : ℚ) := by
      norm_num [seedProducts]
    have hlen : ((seedProducts.length : ℕ) : ℚ) = 4 := by norm_num [seedProducts]
    have havg : toFixed2 ((161960 : ℚ) / 4) = "40490.00" := by
      have h0 : ((161960 : ℚ) / 4) = 40490 := by norm_num
      rw [h0]
      unfold toFixed2
      have h1 : (40490 : ℚ) * 100 = ((4049000 : ℤ) : ℚ) := by norm_num
      rw [h1, round_intCast]
      decide
    have hext : ∀ a b : SummaryData,
        a.totalProducts = b.totalProducts → a.totalValue = b.totalValue →
        a.averagePrice = b.averagePrice → a.cheapestProduct = b.cheapestProduct →
        a.mostExpensiveProduct = b.mostExpensiveProduct → a = b := by
      intro a b h1 h2 h3 h4 h5
      cases a
      cases b
      simp_all
    apply hext
    · rfl
    · exact htv
    · show (if 0 < seedProducts.length then
          AvgPrice.str (toFixed2 ((seedProducts.foldl (fun s p => s + p.price) 0) /
            (seedProducts.length : ℚ)))
        else AvgPrice.num 0) = AvgPrice.str "40490.00"
      rw [if_pos (by decide : 0 < seedProducts.length), htv, hlen, havg]
    · decide
    · decide

/-- Witness for C3: the averagePrice clause applied to the (non-empty) seed
catalog. -/
theorem summary_spec_witness :
    (summary seedProducts).averagePrice =
      AvgPrice.str (toFixed2 (((seedProducts.map Product.price).sum) /
        (seedProducts.length : ℚ))) :=
  (summary_spec.1 seedProducts).2.2.2.2.2 (by decide)
